import Mathlib

/-!
# Verification of the caching / rate-limiting / batch-dispatch core of
# `src/python_services/yf_service.py`

This file shallowly embeds the core of the Yahoo-Finance gateway service:

* the sliding-window rate limiter (`rate_limited` and its inlined copies
  in every `get_ticker_*` function, lines 84-108 / 124-140 / ...);
* the five per-category TTL caches and the cache-key construction;
* the fetch dispatchers `get_ticker_quote`, `get_ticker_historical`,
  `get_ticker_options`, `get_ticker_dividends`, `search_for_symbols`;
* the batch loops of the `/quote` and `/dividends` endpoints.

Timestamps are modelled by integers.  The rate-limiting and cache-expiry
logic uses only ordered-additive-group operations on time (`+`, `-`, `<`,
`min`), so the granularity of the time type is immaterial; we use units of
one second, matching the source constants (window 60, TTLs 300 .. 604800).
The purge-check-sleep-record sequence of the rate limiter runs under
`request_lock`, so it is embedded as one atomic step; the second
`time.time()` call (line 104) is modelled as the instant the explicit sleep
ends, i.e. no time passes inside the critical section other than the
explicit `time.sleep`.

The upstream collaborator (`yfinance`) is modelled as an oracle of pure
functions that may fail, mirroring the exceptions of the library calls.
Payload numbers (prices, dividend amounts, strikes) are rationals; the core
never computes with them, it only moves them around.
-/

namespace YfService

/-! ## Rate limiter (source lines 50-54 and 84-108) -/

/-- `REQUEST_WINDOW_SECONDS = 60` (source line 52). -/
def REQUEST_WINDOW_SECONDS : ℤ := 60

/-- `MAX_REQUESTS_PER_MINUTE = 100` (source line 51). -/
def MAX_REQUESTS_PER_MINUTE : Nat := 100

/-- Line 92-93: `request_timestamps = [ts for ts in request_timestamps if
current_time - ts < REQUEST_WINDOW_SECONDS]`. -/
def purge (now : ℤ) (tss : List ℤ) : List ℤ :=
  tss.filter (fun ts => decide (now - ts < REQUEST_WINDOW_SECONDS))

/-- Python's `min` over a non-empty list (line 97: `oldest =
min(request_timestamps)`); returns `0` on the empty list, which the source
never reaches (the `min` is only taken when the list has at least
`MAX_REQUESTS_PER_MINUTE` elements). -/
def listMin : List ℤ → ℤ
  | [] => 0
  | x :: xs => xs.foldl min x

/-- State of the rate limiter: the module-level `request_timestamps` list,
the current wall-clock time, and a ghost log of every admission ever
recorded (the log is write-only in the code; it exists to state
window-counting properties). -/
structure RL where
  clock : ℤ
  timestamps : List ℤ
  log : List ℤ

/-- Lines 96-101: capacity check against the purged list and the optional
`time.sleep(REQUEST_WINDOW_SECONDS - (current_time - oldest))`.  Returns the
instant at which line 104 records the new admission: the current time,
postponed by the sleep when the purged list is at capacity. -/
def admitRecordTime (now : ℤ) (kept : List ℤ) : ℤ :=
  if MAX_REQUESTS_PER_MINUTE ≤ kept.length then
    let oldest := listMin kept
    let sleepTime := REQUEST_WINDOW_SECONDS - (now - oldest)
    if 0 < sleepTime then now + sleepTime else now
  else now

/-- One admission attempt (the critical section of lines 88-104), entered
`d` seconds after the previous recorded event.  Purge stale timestamps,
check capacity, sleep `REQUEST_WINDOW_SECONDS - (now - oldest)` when at
capacity, then record the (possibly postponed) current time. -/
def admitStep (d : ℤ) (s : RL) : RL :=
  let now := s.clock + d
  let kept := purge now s.timestamps
  let rt := admitRecordTime now kept
  ⟨rt, kept ++ [rt], s.log ++ [rt]⟩

/-- A sequence of admission attempts, given by inter-arrival delays. -/
def runRL (ds : List ℤ) (s : RL) : RL :=
  ds.foldl (fun s d => admitStep d s) s

/-- Initial state: empty `request_timestamps` (line 53), clock `t0`. -/
def RL.init (t0 : ℤ) : RL := ⟨t0, [], []⟩

/-- `t` lies in the trailing window `(T - 60, T]`; the left end is strict,
matching the source's own notion of "within the window"
(`current_time - ts < REQUEST_WINDOW_SECONDS`, line 93). -/
def inWindow (T t : ℤ) : Bool :=
  decide (T - REQUEST_WINDOW_SECONDS < t) && decide (t ≤ T)

example : purge 100 [30, 50, 90] = [50, 90] := by decide
example : (admitStep 5 (RL.init 0)).log = [5] := by decide
example : (runRL [0, 0] (RL.init 0)).timestamps = [0, 0] := by decide
example : inWindow 60 0 = false ∧ inWindow 60 1 = true := by decide

/-! ## Rate limiter invariant -/

lemma window_pos : (0 : ℤ) < REQUEST_WINDOW_SECONDS := by decide

/-- The purge predicate `now - ts < W` keeps exactly the timestamps
strictly inside the trailing window `(now - W, now]`-on-the-left. -/
lemma purge_eq (now : ℤ) (tss : List ℤ) :
    purge now tss =
      tss.filter (fun ts => decide (now - REQUEST_WINDOW_SECONDS < ts)) := by
  unfold purge
  apply List.filter_congr
  intro t _
  simp only [decide_eq_decide]
  omega

lemma mem_purge {now : ℤ} {tss : List ℤ} {t : ℤ} (h : t ∈ purge now tss) :
    t ∈ tss ∧ now - REQUEST_WINDOW_SECONDS < t := by
  rw [purge_eq] at h
  have := List.mem_filter.mp h
  simpa using this

lemma length_purge (now : ℤ) (tss : List ℤ) :
    (purge now tss).length =
      tss.countP (fun ts => decide (now - REQUEST_WINDOW_SECONDS < ts)) := by
  rw [purge_eq, List.countP_eq_length_filter]

lemma foldl_min_le (xs : List ℤ) (a : ℤ) :
    xs.foldl min a ≤ a ∧ ∀ t ∈ xs, xs.foldl min a ≤ t := by
  induction xs generalizing a with
  | nil => simp
  | cons x xs ih =>
    obtain ⟨ih1, ih2⟩ := ih (min a x)
    refine ⟨le_trans ih1 (min_le_left a x), ?_⟩
    intro t ht
    rcases List.mem_cons.mp ht with rfl | ht
    · exact le_trans ih1 (min_le_right a t)
    · exact ih2 t ht

lemma foldl_min_mem (xs : List ℤ) (a : ℤ) :
    xs.foldl min a = a ∨ xs.foldl min a ∈ xs := by
  induction xs generalizing a with
  | nil => simp
  | cons x xs ih =>
    rcases ih (min a x) with h | h
    · rcases min_choice a x with hm | hm
      · left; rw [List.foldl_cons, h, hm]
      · right; rw [List.foldl_cons, h, hm]; exact List.mem_cons_self x xs
    · right; exact List.mem_cons_of_mem x h

lemma listMin_le {l : List ℤ} {t : ℤ} (h : t ∈ l) : listMin l ≤ t := by
  cases l with
  | nil => cases h
  | cons x xs =>
    rcases List.mem_cons.mp h with rfl | h
    · exact (foldl_min_le xs t).1
    · exact (foldl_min_le xs x).2 t h

lemma listMin_mem {l : List ℤ} (h : l ≠ []) : listMin l ∈ l := by
  cases l with
  | nil => exact absurd rfl h
  | cons x xs =>
    rcases foldl_min_mem xs x with h' | h'
    · rw [listMin, h']; exact List.mem_cons_self x xs
    · exact List.mem_cons_of_mem x h'

/-- Inductive invariant of the rate limiter state:
1. every retained timestamp is in the past;
2. every logged admission is in the past;
3. at most capacity-many retained timestamps are inside the trailing
   window of the clock;
4. above any threshold not older than the window, the retained list and
   the full admission log count the same timestamps (nothing inside the
   window is ever purged);
5. every trailing window of the admission log holds at most capacity
   admissions;
6. the retained list is a sub-multiset of the admission log;
7. every retained timestamp is at least `clock - W` (purging keeps only
   the window, plus possibly the boundary element that the last postponed
   admission aged to exactly the window's edge). -/
def RLinv (s : RL) : Prop :=
  (∀ t ∈ s.timestamps, t ≤ s.clock) ∧
  (∀ t ∈ s.log, t ≤ s.clock) ∧
  (s.timestamps.countP (fun t => decide (s.clock - REQUEST_WINDOW_SECONDS < t)) ≤
    MAX_REQUESTS_PER_MINUTE) ∧
  (∀ a : ℤ, s.clock - REQUEST_WINDOW_SECONDS ≤ a →
    s.log.countP (fun t => decide (a < t)) =
      s.timestamps.countP (fun t => decide (a < t))) ∧
  (∀ T : ℤ, s.log.countP (inWindow T) ≤ MAX_REQUESTS_PER_MINUTE) ∧
  (∀ p : ℤ → Bool, s.timestamps.countP p ≤ s.log.countP p) ∧
  (∀ t ∈ s.timestamps, s.clock - REQUEST_WINDOW_SECONDS ≤ t)

lemma RLinv_init (t0 : ℤ) : RLinv (RL.init t0) := by
  refine ⟨?_, ?_, ?_, ?_, ?_, ?_, ?_⟩ <;> simp [RL.init, MAX_REQUESTS_PER_MINUTE]

/-- Counting above a threshold no older than the purge window is the same
before and after purging. -/
lemma countP_purge_of_le {now a : ℤ} (ha : now - REQUEST_WINDOW_SECONDS ≤ a)
    (tss : List ℤ) :
    (purge now tss).countP (fun t => decide (a < t)) =
      tss.countP (fun t => decide (a < t)) := by
  rw [purge_eq, List.countP_filter]
  apply List.countP_congr
  intro t _
  simp only [Bool.and_eq_true, decide_eq_true_eq]
  omega

/-- A list member not counted by `countP` forces a strict bound. -/
lemma countP_succ_le_length {l : List ℤ} {x : ℤ} (hx : x ∈ l) :
    l.countP (fun t => decide (x < t)) + 1 ≤ l.length := by
  have h := List.length_eq_countP_add_countP (p := fun t => decide (x < t)) (l := l)
  have hpos : 0 < l.countP fun t => ¬(decide (x < t) = true) := by
    rw [List.countP_pos_iff]
    exact ⟨x, hx, by simp⟩
  omega

lemma now_le_admitRecordTime (now : ℤ) (kept : List ℤ) :
    now ≤ admitRecordTime now kept := by
  unfold admitRecordTime
  split
  · dsimp only
    split
    · omega
    · exact le_refl _
  · exact le_refl _

/-- In the at-capacity branch the sleep is always strictly positive (the
oldest retained timestamp is strictly inside the window), so the recorded
admission lands exactly when the oldest retained timestamp turns
window-old. -/
lemma admitRecordTime_at_capacity {now : ℤ} {tss : List ℤ}
    (hcap : MAX_REQUESTS_PER_MINUTE ≤ (purge now tss).length) :
    admitRecordTime now (purge now tss) =
      listMin (purge now tss) + REQUEST_WINDOW_SECONDS := by
  have hne : purge now tss ≠ [] := by
    intro h
    rw [h] at hcap
    simp [MAX_REQUESTS_PER_MINUTE] at hcap
  have hmem := listMin_mem hne
  have hwin := (mem_purge hmem).2
  unfold admitRecordTime
  rw [if_pos hcap]
  dsimp only
  rw [if_pos (by omega)]
  omega

lemma admitRecordTime_below_capacity {now : ℤ} {kept : List ℤ}
    (hcap : ¬ MAX_REQUESTS_PER_MINUTE ≤ kept.length) :
    admitRecordTime now kept = now := by
  unfold admitRecordTime
  rw [if_neg hcap]

/-- The inductive invariant is preserved by every admission attempt made at
or after the previous recorded event. -/
lemma RLinv_admitStep {s : RL} (d : ℤ) (hd : 0 ≤ d) (h : RLinv s) :
    RLinv (admitStep d s) := by
  obtain ⟨h1, h2, h3, h4, h5, h6, h7⟩ := h
  have hW := window_pos
  set now := s.clock + d with hnow
  set kept := purge now s.timestamps with hkept
  set rt := admitRecordTime now kept with hrt
  have hstep : admitStep d s = ⟨rt, kept ++ [rt], s.log ++ [rt]⟩ := rfl
  have hclock : s.clock ≤ now := by omega
  have hkm : ∀ t ∈ kept, t ∈ s.timestamps ∧ now - REQUEST_WINDOW_SECONDS < t :=
    fun t ht => mem_purge ht
  have hnrt : now ≤ rt := now_le_admitRecordTime now kept
  -- the purged list never exceeds capacity
  have hklen : kept.length ≤ MAX_REQUESTS_PER_MINUTE := by
    rw [hkept, length_purge]
    calc s.timestamps.countP (fun ts => decide (now - REQUEST_WINDOW_SECONDS < ts))
        ≤ s.timestamps.countP (fun ts => decide (s.clock - REQUEST_WINDOW_SECONDS < ts)) := by
          apply List.countP_mono_left
          intro x _ hx
          simp only [decide_eq_true_eq] at hx ⊢
          omega
      _ ≤ MAX_REQUESTS_PER_MINUTE := h3
  -- count over the log equals count over the retained list above any
  -- threshold that is at least `now - W`
  have hlogkept : ∀ a : ℤ, now - REQUEST_WINDOW_SECONDS ≤ a →
      s.log.countP (fun t => decide (a < t)) = kept.countP (fun t => decide (a < t)) := by
    intro a ha
    rw [hkept, countP_purge_of_le ha]
    exact h4 a (by omega)
  by_cases hcap : MAX_REQUESTS_PER_MINUTE ≤ kept.length
  · -- at capacity: the admission is recorded at `oldest + W`
    have hkne : kept ≠ [] := by
      intro hk
      rw [hk] at hcap
      simp [MAX_REQUESTS_PER_MINUTE] at hcap
    have hmin : listMin kept ∈ kept := listMin_mem hkne
    have hminwin : now - REQUEST_WINDOW_SECONDS < listMin kept := (hkm _ hmin).2
    have hrteq : rt = listMin kept + REQUEST_WINDOW_SECONDS := by
      rw [hrt, hkept]
      exact admitRecordTime_at_capacity (hkept ▸ hcap)
    have hkeq : kept.length = MAX_REQUESTS_PER_MINUTE := le_antisymm hklen hcap
    have hcnt : kept.countP (fun t => decide (listMin kept < t)) + 1 ≤ kept.length :=
      countP_succ_le_length hmin
    rw [hstep]
    unfold RLinv
    dsimp only
    refine ⟨?_, ?_, ?_, ?_, ?_, ?_, ?_⟩
    · intro t ht
      rcases List.mem_append.mp ht with ht | ht
      · exact le_trans (h1 t (hkm t ht).1) (by omega)
      · simp only [List.mem_singleton] at ht
        omega
    · intro t ht
      rcases List.mem_append.mp ht with ht | ht
      · exact le_trans (h2 t ht) (by omega)
      · simp only [List.mem_singleton] at ht
        omega
    · simp only [List.countP_append, List.countP_singleton]
      have hshift : ∀ t : ℤ, (decide (rt - REQUEST_WINDOW_SECONDS < t)) =
          (decide (listMin kept < t)) := by
        intro t
        simp only [decide_eq_decide]
        omega
      simp only [hshift]
      rw [if_pos (by simp only [decide_eq_true_eq]; omega)]
      omega
    · intro a ha
      simp only [List.countP_append, List.countP_singleton]
      rw [hlogkept a (by omega)]
    · intro T
      simp only [List.countP_append, List.countP_singleton]
      by_cases hTin : inWindow T rt = true
      · rw [if_pos hTin]
        have hT : T - REQUEST_WINDOW_SECONDS < rt ∧ rt ≤ T := by
          have := hTin
          unfold inWindow at this
          simp only [Bool.and_eq_true, decide_eq_true_eq] at this
          exact this
        have hb1 : s.log.countP (inWindow T) ≤
            s.log.countP (fun t => decide (T - REQUEST_WINDOW_SECONDS < t)) := by
          apply List.countP_mono_left
          intro x _ hx
          unfold inWindow at hx
          simp only [Bool.and_eq_true, decide_eq_true_eq] at hx
          simp only [decide_eq_true_eq]
          exact hx.1
        have hb2 : s.log.countP (fun t => decide (T - REQUEST_WINDOW_SECONDS < t)) =
            kept.countP (fun t => decide (T - REQUEST_WINDOW_SECONDS < t)) :=
          hlogkept _ (by omega)
        have hb3 : kept.countP (fun t => decide (T - REQUEST_WINDOW_SECONDS < t)) ≤
            kept.countP (fun t => decide (listMin kept < t)) := by
          apply List.countP_mono_left
          intro x _ hx
          simp only [decide_eq_true_eq] at hx ⊢
          omega
        omega
      · rw [if_neg hTin]
        have := h5 T
        omega
    · intro p
      simp only [List.countP_append]
      have : kept.countP p ≤ s.timestamps.countP p := by
        rw [hkept, purge_eq, List.countP_filter]
        apply List.countP_mono_left
        intro x _ hx
        simp only [Bool.and_eq_true] at hx
        exact hx.1
      have := h6 p
      omega
    · intro t ht
      rcases List.mem_append.mp ht with ht | ht
      · have := listMin_le ht
        omega
      · simp only [List.mem_singleton] at ht
        omega
  · -- below capacity: the admission is recorded immediately
    have hrteq : rt = now := by
      rw [hrt]
      exact admitRecordTime_below_capacity hcap
    have hklt : kept.length < MAX_REQUESTS_PER_MINUTE := by omega
    rw [hstep]
    unfold RLinv
    dsimp only
    refine ⟨?_, ?_, ?_, ?_, ?_, ?_, ?_⟩
    · intro t ht
      rcases List.mem_append.mp ht with ht | ht
      · exact le_trans (h1 t (hkm t ht).1) (by omega)
      · simp only [List.mem_singleton] at ht
        omega
    · intro t ht
      rcases List.mem_append.mp ht with ht | ht
      · exact le_trans (h2 t ht) (by omega)
      · simp only [List.mem_singleton] at ht
        omega
    · simp only [List.countP_append, List.countP_singleton]
      have : (kept.countP fun t => decide (rt - REQUEST_WINDOW_SECONDS < t)) ≤
          kept.length := List.countP_le_length _
      split <;> omega
    · intro a ha
      simp only [List.countP_append, List.countP_singleton]
      rw [hlogkept a (by omega)]
    · intro T
      simp only [List.countP_append, List.countP_singleton]
      by_cases hTin : inWindow T rt = true
      · rw [if_pos hTin]
        have hT : T - REQUEST_WINDOW_SECONDS < rt ∧ rt ≤ T := by
          have := hTin
          unfold inWindow at this
          simp only [Bool.and_eq_true, decide_eq_true_eq] at this
          exact this
        have hb1 : s.log.countP (inWindow T) ≤
            s.log.countP (fun t => decide (T - REQUEST_WINDOW_SECONDS < t)) := by
          apply List.countP_mono_left
          intro x _ hx
          unfold inWindow at hx
          simp only [Bool.and_eq_true, decide_eq_true_eq] at hx
          simp only [decide_eq_true_eq]
          exact hx.1
        have hb2 : s.log.countP (fun t => decide (T - REQUEST_WINDOW_SECONDS < t)) =
            kept.countP (fun t => decide (T - REQUEST_WINDOW_SECONDS < t)) :=
          hlogkept _ (by omega)
        have hb3 : kept.countP (fun t => decide (T - REQUEST_WINDOW_SECONDS < t)) ≤
            kept.length := List.countP_le_length _
        omega
      · rw [if_neg hTin]
        have := h5 T
        omega
    · intro p
      simp only [List.countP_append]
      have : kept.countP p ≤ s.timestamps.countP p := by
        rw [hkept, purge_eq, List.countP_filter]
        apply List.countP_mono_left
        intro x _ hx
        simp only [Bool.and_eq_true] at hx
        exact hx.1
      have := h6 p
      omega
    · intro t ht
      rcases List.mem_append.mp ht with ht | ht
      · have := (hkm t ht).2
        omega
      · simp only [List.mem_singleton] at ht
        omega

/-- The invariant holds after any run of admission attempts with
non-negative inter-arrival delays. -/
lemma RLinv_runRL {s : RL} (ds : List ℤ) (hds : ∀ d ∈ ds, 0 ≤ d)
    (h : RLinv s) : RLinv (runRL ds s) := by
  induction ds generalizing s with
  | nil => exact h
  | cons d ds ih =>
    have hstep := RLinv_admitStep d (hds d (List.mem_cons_self d ds)) h
    exact ih (fun x hx => hds x (List.mem_cons_of_mem d hx)) hstep

/-- Purging an already-purged list at the same instant changes nothing. -/
lemma purge_idem (now : ℤ) (tss : List ℤ) :
    purge now (purge now tss) = purge now tss := by
  unfold purge
  rw [List.filter_filter]
  apply List.filter_congr
  intro t _
  rw [Bool.and_self]

/-- **C1**: starting from the empty rate-limiter state, after any sequence
of admission attempts (with non-negative inter-arrival delays), no trailing
window of `REQUEST_WINDOW_SECONDS` seconds — `(T - 60, T]` for any `T`, the
window notion used by the purge itself — contains more than
`MAX_REQUESTS_PER_MINUTE = 100` recorded admissions.  Each attempt purges
stale timestamps, and when the purged list is at capacity suspends the
caller for `REQUEST_WINDOW_SECONDS - (now - oldest)` before recording
(`admitStep`). -/
theorem rate_limiter_window_bound (ds : List ℤ) (t0 T : ℤ)
    (hds : ∀ d ∈ ds, 0 ≤ d) :
    (runRL ds (RL.init t0)).log.countP (inWindow T) ≤ MAX_REQUESTS_PER_MINUTE :=
  (RLinv_runRL ds hds (RLinv_init t0)).2.2.2.2.1 T

theorem rate_limiter_window_bound_witness :
    (∀ d ∈ ([0, 10, 0] : List ℤ), 0 ≤ d) ∧
    (runRL [0, 10, 0] (RL.init 5)).log.countP (inWindow 15) ≤
      MAX_REQUESTS_PER_MINUTE :=
  ⟨by decide, rate_limiter_window_bound [0, 10, 0] 5 15 (by decide)⟩

/-- **C6, counterexample to the claim as stated**: purging is lazy (it
happens only at the start of an admission attempt), so "at every instant
during and after any sequence of admission operations" the raw number of
retained timestamps can exceed the number of admissions inside the current
trailing window.  Concretely: after a single admission at time 0, at
instant 61 the stale timestamp is still retained (1 entry) while the
trailing window `(1, 61]` contains 0 admissions. -/
theorem retained_count_bound_refuted :
    ¬ ((runRL [0] (RL.init 0)).timestamps.length ≤
        (runRL [0] (RL.init 0)).log.countP (inWindow 61)) := by
  decide

/-- **C6, amended**: (1) at every instant `T`, the retained timestamps
lying inside the trailing window `(T - 60, T]` never outnumber the admitted
calls recorded in that window; (2) immediately after the last admission
operation, every retained timestamp lies in the closed window
`[clock - 60, clock]`, so the total retained count is bounded by the
admissions in that closed window; (3) stale timestamps are purged before
every admission check: an admission attempt behaves identically on the
purged state, so timestamps older than the window never influence it. -/
theorem rate_window_retention_invariant (ds : List ℤ) (t0 : ℤ)
    (hds : ∀ d ∈ ds, 0 ≤ d) :
    (∀ T : ℤ, (runRL ds (RL.init t0)).timestamps.countP (inWindow T) ≤
        (runRL ds (RL.init t0)).log.countP (inWindow T)) ∧
    ((runRL ds (RL.init t0)).timestamps.length ≤
      (runRL ds (RL.init t0)).log.countP
        (fun t => decide ((runRL ds (RL.init t0)).clock - REQUEST_WINDOW_SECONDS ≤ t) &&
          decide (t ≤ (runRL ds (RL.init t0)).clock))) ∧
    (∀ (d : ℤ) (s : RL),
      admitStep d s = admitStep d ⟨s.clock, purge (s.clock + d) s.timestamps, s.log⟩) := by
  obtain ⟨h1, _, _, _, _, h6, h7⟩ := RLinv_runRL ds hds (RLinv_init t0)
  refine ⟨fun T => h6 (inWindow T), ?_, ?_⟩
  · have hall : ∀ t ∈ (runRL ds (RL.init t0)).timestamps,
        (decide ((runRL ds (RL.init t0)).clock - REQUEST_WINDOW_SECONDS ≤ t) &&
          decide (t ≤ (runRL ds (RL.init t0)).clock)) = true := by
      intro t ht
      simp only [Bool.and_eq_true, decide_eq_true_eq]
      exact ⟨h7 t ht, h1 t ht⟩
    calc (runRL ds (RL.init t0)).timestamps.length
        = (runRL ds (RL.init t0)).timestamps.countP
            (fun t => decide ((runRL ds (RL.init t0)).clock - REQUEST_WINDOW_SECONDS ≤ t) &&
              decide (t ≤ (runRL ds (RL.init t0)).clock)) :=
          (List.countP_eq_length.mpr hall).symm
      _ ≤ _ := h6 _
  · intro d s
    show admitStep d s = admitStep d ⟨s.clock, purge (s.clock + d) s.timestamps, s.log⟩
    unfold admitStep
    dsimp only
    rw [purge_idem]

theorem rate_window_retention_invariant_witness :
    (runRL [0, 0] (RL.init 0)).timestamps.countP (inWindow 7) ≤
      (runRL [0, 0] (RL.init 0)).log.countP (inWindow 7) :=
  (rate_window_retention_invariant [0, 0] 0 (by decide)).1 7

/-! ## Data model of the fetch layer (source lines 34-48 and 115-556)

Payload values that the service only copies from the provider (prices,
amounts, strikes) are rationals; timestamps are integers. -/

/-- The fields of `ticker.info` the service reads; `none` models a key that
is absent from the dict (`dict.get` then yields `None`). -/
structure Info where
  regularMarketPrice : Option ℚ
  regularMarketTime : Option ℤ
  previousClose : Option ℚ
  marketCap : Option ℤ
  currency : Option String
  dividendRate : Option ℚ
  dividendYield : Option ℚ
  exDividendDate : Option ℤ
  payoutRatio : Option ℚ
  fiveYearAvgDividendYield : Option ℚ
  shortName : Option String
  longName : Option String
  exchange : Option String
  quoteType : Option String
deriving DecidableEq

/-- The quote payload shaped at lines 148-155. -/
structure QuoteResult where
  symbol : String
  regularMarketPrice : Option ℚ
  regularMarketTime : Option ℤ
  previousClose : Option ℚ
  marketCap : Option ℤ
  currency : Option String
deriving DecidableEq

/-- The bar data `ticker.history(...)` yields, already aligned: Unix
timestamps of the index plus the five per-bar series (lines 228-249). -/
structure HistData where
  timestamps : List ℤ
  close : List ℚ
  open_ : List ℚ
  high : List ℚ
  low : List ℚ
  volume : List ℚ
deriving DecidableEq

/-- `chart.result[0].meta` (lines 236-241). -/
structure HistMeta where
  currency : String
  symbol : String
  regularMarketPrice : Option ℚ
  previousClose : Option ℚ
deriving DecidableEq

/-- `chart.result[0].indicators.quote[0]` (lines 244-250). -/
structure HistQuote where
  close : List ℚ
  open_ : List ℚ
  high : List ℚ
  low : List ℚ
  volume : List ℚ
deriving DecidableEq

/-- The single element of `chart.result` (lines 233-254). -/
structure HistResult where
  meta : HistMeta
  timestamp : List ℤ
  quote : HistQuote
deriving DecidableEq

/-- One option contract record (`calls.to_dict(orient='records')` row):
its strike plus the remaining upstream fields, carried opaquely. -/
structure Contract where
  strike : ℚ
  fields : List (String × String)
deriving DecidableEq

/-- `ticker.option_chain(exp_date)` (line 410). -/
structure OptionChain where
  calls : List Contract
  puts : List Contract
deriving DecidableEq

/-- The single element of `optionChain.result` (lines 415-424). -/
structure OptionsResult where
  expirationDates : List ℤ
  strikes : List ℚ
  calls : List Contract
  puts : List Contract
deriving DecidableEq

/-- One shaped dividend record (lines 497-501): date string, whole-second
Unix timestamp, amount. -/
structure DivRecord where
  date : String
  timestamp : ℤ
  amount : ℚ
deriving DecidableEq

/-- `info` block of the dividends payload (lines 484-491). -/
structure DivInfo where
  symbol : String
  dividendRate : Option ℚ
  dividendYield : Option ℚ
  exDividendDate : Option ℤ
  payoutRatio : Option ℚ
  fiveYearAvgDividendYield : Option ℚ
deriving DecidableEq

/-- The dividends payload (lines 506-514). -/
structure DivResult where
  info : DivInfo
  history : List DivRecord
  message : String
deriving DecidableEq

/-- One search result entry (lines 336-342). -/
structure SearchItem where
  symbol : String
  shortname : Option String
  longname : Option String
  exchange : Option String
  quoteType : Option String
deriving DecidableEq

/-- Error classification at the service boundary: the explicit
`raise ValueError` of line 404 (mapped to HTTP 404 at line 445-446) versus
any other exception of the fetch collaborator (mapped to HTTP 500). -/
inductive Err where
  | upstream (msg : String)
  | notFound (msg : String)
deriving DecidableEq

deriving instance DecidableEq for Except

/-- The upstream fetch collaborator (`yfinance`), as an oracle of pure
fallible functions: `info` is `ticker.info`, `history` is
`ticker.history(period, interval)` (index already converted to Unix
seconds), `options` is `ticker.options`, `optionChain` is
`ticker.option_chain(exp_date)`, `dividends` is `ticker.dividends` (dates
already rendered as a string and a Unix timestamp, as lines 498-500 do),
`search` is `yf.Tickers(query).tickers.items()` together with each ticker's
fallible `info`, and `dateToTs` is
`int(datetime.strptime(exp, "%Y-%m-%d").timestamp())`. -/
structure Oracle where
  info : String → Except String Info
  history : String → String → String → Except String HistData
  options : String → Except String (List String)
  optionChain : String → String → Except String OptionChain
  dividends : String → Except String (List DivRecord)
  search : String → Except String (List (String × Except String Info))
  dateToTs : String → ℤ

/-! ## TTL caches (source lines 34-48, `cachetools.TTLCache`) -/

/-- Per-category TTLs of `CACHE_SETTINGS` (lines 35-41), in seconds. -/
def CACHE_SETTINGS_QUOTE : ℤ := 5 * 60
def CACHE_SETTINGS_HISTORICAL : ℤ := 24 * 60 * 60
def CACHE_SETTINGS_OPTIONS : ℤ := 6 * 60 * 60
def CACHE_SETTINGS_DIVIDENDS : ℤ := 7 * 24 * 60 * 60
def CACHE_SETTINGS_SEARCH : ℤ := 24 * 60 * 60

/-- A TTL cache: key, insertion time, value.  `TTLCache` evicts expired
entries lazily and treats them as absent on membership tests; capacity
eviction only removes entries and is not exercised by any property here. -/
abbrev Cache (α : Type) : Type := List (String × ℤ × α)

/-- `key in cache` followed by `cache[key]`: an entry is returned only
while its age is strictly below the TTL. -/
def cacheLookup (ttl now : ℤ) (c : Cache α) (k : String) : Option α :=
  match c.find? (fun e => e.1 == k) with
  | some e => if decide (now - e.2.1 < ttl) then some e.2.2 else none
  | none => none

/-- `cache[key] = value`: replaces any previous entry for the key. -/
def cacheStore (now : ℤ) (c : Cache α) (k : String) (v : α) : Cache α :=
  (k, now, v) :: c.filter (fun e => !(e.1 == k))

/-! ## The shared process state -/

/-- The module-level mutable state: wall clock, the shared rate limiter
(`request_timestamps` plus the ghost admission log), a ghost count of
upstream fetch attempts, and the five independent caches (lines 44-48). -/
structure World where
  clock : ℤ
  rlTimestamps : List ℤ
  rlLog : List ℤ
  fetchCount : Nat
  quoteCache : Cache QuoteResult
  historicalCache : Cache HistResult
  optionsCache : Cache OptionsResult
  dividendsCache : Cache DivResult
  searchCache : Cache (List SearchItem)
deriving DecidableEq

/-- The five cache components of the state, bundled for statements about
"no cache changed". -/
def World.caches (w : World) :
    Cache QuoteResult × Cache HistResult × Cache OptionsResult ×
      Cache DivResult × Cache (List SearchItem) :=
  (w.quoteCache, w.historicalCache, w.optionsCache, w.dividendsCache, w.searchCache)

/-- The rate-limiting block inlined in every dispatcher (e.g. lines
124-140): purge, capacity check, optional sleep, record.  Identical to
`admitStep` with zero inter-arrival delay, acting on the shared state. -/
def rlAdmit (w : World) : World :=
  let now := w.clock
  let kept := purge now w.rlTimestamps
  let rt := admitRecordTime now kept
  { w with clock := rt, rlTimestamps := kept ++ [rt], rlLog := w.rlLog ++ [rt] }

/-- Entering the `try:` block that calls the collaborator; counts one
upstream fetch attempt (ghost). -/
def startFetch (w : World) : World :=
  { w with fetchCount := w.fetchCount + 1 }

/-- The empty initial state at time `t0`. -/
def World.init (t0 : ℤ) : World :=
  ⟨t0, [], [], 0, [], [], [], [], []⟩

/-! ## Cache keys (normalized per category) -/

/-- Python's `str.upper()`: per-character case folding. -/
def pyUpper (s : String) : String := ⟨s.data.map Char.toUpper⟩

/-- Python's `str.lower()`: per-character case folding. -/
def pyLower (s : String) : String := ⟨s.data.map Char.toLower⟩

/-- Line 118: `f"quote:{symbol.upper()}"`. -/
def quoteKey (symbol : String) : String := "quote:" ++ pyUpper symbol

/-- Line 201: `f"historical:{symbol.upper()}:{period}:{interval}"`. -/
def historicalKey (symbol period interval : String) : String :=
  "historical:" ++ pyUpper symbol ++ ":" ++ period ++ ":" ++ interval

/-- Line 372: `f"options:{symbol.upper()}:{expiration or 'first'}"` (a
missing expiration is keyed as `"first"`). -/
def optionsKey (symbol : String) (expiration : Option String) : String :=
  "options:" ++ pyUpper symbol ++ ":" ++ expiration.getD "first"

/-- Line 454: `f"dividends:{symbol.upper()}:{period}"`. -/
def dividendsKey (symbol period : String) : String :=
  "dividends:" ++ pyUpper symbol ++ ":" ++ period

/-- Line 302: `f"search:{query.lower()}"`. -/
def searchKey (query : String) : String := "search:" ++ pyLower query

/-! ## Fetch dispatchers -/

/-- `get_ticker_quote` (lines 115-162): cache check, rate limiting, fetch,
shape, cache, return; an upstream exception propagates after the rate
limiter has recorded the attempt but before anything is cached. -/
def get_ticker_quote (o : Oracle) (symbol : String) (w : World) :
    Except Err QuoteResult × World :=
  match cacheLookup CACHE_SETTINGS_QUOTE w.clock w.quoteCache (quoteKey symbol) with
  | some cached => (Except.ok cached, w)
  | none =>
    let w2 := startFetch (rlAdmit w)
    match o.info symbol with
    | Except.error e => (Except.error (Err.upstream e), w2)
    | Except.ok q =>
      let result : QuoteResult :=
        { symbol := symbol
          regularMarketPrice := q.regularMarketPrice
          regularMarketTime := q.regularMarketTime
          previousClose := q.previousClose
          marketCap := q.marketCap
          currency := q.currency }
      (Except.ok result,
        { w2 with quoteCache :=
            cacheStore w2.clock w2.quoteCache (quoteKey symbol) result })

/-- `get_ticker_historical` (lines 198-261). -/
def get_ticker_historical (o : Oracle) (symbol period interval : String)
    (w : World) : Except Err HistResult × World :=
  match cacheLookup CACHE_SETTINGS_HISTORICAL w.clock w.historicalCache
      (historicalKey symbol period interval) with
  | some cached => (Except.ok cached, w)
  | none =>
    let w2 := startFetch (rlAdmit w)
    match o.history symbol period interval with
    | Except.error e => (Except.error (Err.upstream e), w2)
    | Except.ok hist =>
      match o.info symbol with
      | Except.error e => (Except.error (Err.upstream e), w2)
      | Except.ok i =>
        let result : HistResult :=
          { meta :=
              { currency := (i.currency).getD "USD"
                symbol := symbol
                regularMarketPrice := i.regularMarketPrice
                previousClose := i.previousClose }
            timestamp := hist.timestamps
            quote :=
              { close := hist.close
                open_ := hist.open_
                high := hist.high
                low := hist.low
                volume := hist.volume } }
        (Except.ok result,
          { w2 with historicalCache :=
              cacheStore w2.clock w2.historicalCache (historicalKey symbol period interval) result })

/-- Line 407: `exp_date = expiration if expiration and expiration in
expirations else expirations[0]`. -/
def selectExpiration (expiration : Option String) (expirations : List String) :
    String :=
  match expiration with
  | some e => if expirations.contains e then e else expirations.headD ""
  | none => expirations.headD ""

/-- Insertion into an ascending list of strikes. -/
def insertAsc (x : ℚ) : List ℚ → List ℚ
  | [] => [x]
  | y :: ys => if x ≤ y then x :: y :: ys else y :: insertAsc x ys

/-- Line 419: `sorted(set(calls.strike + puts.strike))` — distinct strikes
in ascending order. -/
def sortedStrikes (l : List ℚ) : List ℚ := l.dedup.foldr insertAsc []

/-- Shaping of the options payload (lines 415-424). -/
def shapeOptions (dateToTs : String → ℤ) (expirations : List String)
    (chain : OptionChain) : OptionsResult :=
  { expirationDates := expirations.map dateToTs
    strikes := sortedStrikes (chain.calls.map (fun c => c.strike) ++
      chain.puts.map (fun c => c.strike))
    calls := chain.calls
    puts := chain.puts }

/-- `get_ticker_options` (lines 369-431): the `raise ValueError` of line
404 when the provider reports no expirations is the classified not-found
error; the selected expiration feeds `ticker.option_chain`, but the cache
key is built from the caller-supplied expiration string (line 372). -/
def get_ticker_options (o : Oracle) (symbol : String)
    (expiration : Option String) (w : World) : Except Err OptionsResult × World :=
  match cacheLookup CACHE_SETTINGS_OPTIONS w.clock w.optionsCache
      (optionsKey symbol expiration) with
  | some cached => (Except.ok cached, w)
  | none =>
    let w2 := startFetch (rlAdmit w)
    match o.options symbol with
    | Except.error e => (Except.error (Err.upstream e), w2)
    | Except.ok expirations =>
      if expirations.isEmpty then
        (Except.error (Err.notFound ("No options available for " ++ symbol)), w2)
      else
        match o.optionChain symbol (selectExpiration expiration expirations) with
        | Except.error e => (Except.error (Err.upstream e), w2)
        | Except.ok chain =>
          let result := shapeOptions o.dateToTs expirations chain
          (Except.ok result,
            { w2 with optionsCache :=
                cacheStore w2.clock w2.optionsCache (optionsKey symbol expiration) result })

/-- Stable insertion into a list sorted by descending timestamp: a new
record goes after existing records with the same timestamp, matching
Python's stable `sort(key=..., reverse=True)` (line 504). -/
def insertDescByTs (x : DivRecord) : List DivRecord → List DivRecord
  | [] => [x]
  | y :: ys => if y.timestamp < x.timestamp then x :: y :: ys else y :: insertDescByTs x ys

/-- Line 504: sort the dividend history newest-first. -/
def sortDescByTs (l : List DivRecord) : List DivRecord :=
  l.foldl (fun acc x => insertDescByTs x acc) []

/-- `get_ticker_dividends` (lines 451-521).  The `period` parameter is used
only in the cache key; `ticker.dividends` takes no argument. -/
def get_ticker_dividends (o : Oracle) (symbol period : String) (w : World) :
    Except Err DivResult × World :=
  match cacheLookup CACHE_SETTINGS_DIVIDENDS w.clock w.dividendsCache
      (dividendsKey symbol period) with
  | some cached => (Except.ok cached, w)
  | none =>
    let w2 := startFetch (rlAdmit w)
    match o.dividends symbol with
    | Except.error e => (Except.error (Err.upstream e), w2)
    | Except.ok divs =>
      match o.info symbol with
      | Except.error e => (Except.error (Err.upstream e), w2)
      | Except.ok i =>
        let dividendInfo : DivInfo :=
          { symbol := symbol
            dividendRate := i.dividendRate
            dividendYield := i.dividendYield
            exDividendDate := i.exDividendDate
            payoutRatio := i.payoutRatio
            fiveYearAvgDividendYield := i.fiveYearAvgDividendYield }
        let history := if divs.isEmpty then [] else sortDescByTs divs
        let message :=
          if divs.isEmpty then "No dividend history found for this symbol"
          else "Found " ++ toString history.length ++ " dividend records"
        let result : DivResult :=
          { info := dividendInfo, history := history, message := message }
        (Except.ok result,
          { w2 with dividendsCache :=
              cacheStore w2.clock w2.dividendsCache (dividendsKey symbol period) result })

/-- `search_for_symbols` (lines 299-352): tickers whose `info` raises or
lacks a `shortName` are silently skipped. -/
def search_for_symbols (o : Oracle) (query : String) (w : World) :
    Except Err (List SearchItem) × World :=
  match cacheLookup CACHE_SETTINGS_SEARCH w.clock w.searchCache (searchKey query) with
  | some cached => (Except.ok cached, w)
  | none =>
    let w2 := startFetch (rlAdmit w)
    match o.search query with
    | Except.error e => (Except.error (Err.upstream e), w2)
    | Except.ok tickers =>
      let results := tickers.foldl
        (fun acc p =>
          match p.2 with
          | Except.error _ => acc
          | Except.ok i =>
            if i.shortName.isSome then
              acc ++ [{ symbol := p.1
                        shortname := i.shortName
                        longname := i.longName
                        exchange := i.exchange
                        quoteType := i.quoteType : SearchItem }]
            else acc)
        []
      (Except.ok results,
        { w2 with searchCache :=
            cacheStore w2.clock w2.searchCache (searchKey query) results })

/-! ## Endpoints: status mapping and batch loops -/

/-- The `/options` endpoint's error mapping (lines 442-449): a result is
HTTP 200, the `ValueError` (not-found) is HTTP 404, anything else 500. -/
def optionsStatus : Except Err OptionsResult → Nat
  | Except.ok _ => 200
  | Except.error (Err.notFound _) => 404
  | Except.error (Err.upstream _) => 500

/-- `BATCH_SIZE = 10` (line 57). -/
def BATCH_SIZE : Nat := 10

/-- `range(0, len(symbol_list), BATCH_SIZE)` slicing: split a list into
chunks of `n` (the last one possibly shorter).  `n = 0` (unreachable, the
source uses 10) yields no chunks. -/
def chunksOf (n : Nat) (l : List α) : List (List α) :=
  if l.isEmpty || n == 0 then []
  else l.take n :: chunksOf n (l.drop n)
termination_by l.length
decreasing_by
  rename_i h
  simp only [Bool.or_eq_true, List.isEmpty_iff, beq_iff_eq] at h
  push_neg at h
  have : 0 < l.length := List.length_pos.mpr h.1
  simp only [List.length_drop]
  omega

/-- Storing a freshly shaped options payload (line 427), as one step. -/
def optionsStoreWorld (w2 : World) (k : String) (v : OptionsResult) : World :=
  { w2 with optionsCache := cacheStore w2.clock w2.optionsCache k v }

/-- Python-dict insertion into an association list: overwrite in place if
the key exists, append otherwise. -/
def dictInsert (m : List (String × α)) (k : String) (v : α) : List (String × α) :=
  match m with
  | [] => [(k, v)]
  | (k', v') :: rest =>
    if k' == k then (k, v) :: rest else (k', v') :: dictInsert rest k v

/-- Python-dict lookup. -/
def dictLookup (m : List (String × α)) (k : String) : Option α :=
  match m.find? (fun p => p.1 == k) with
  | some p => some p.2
  | none => none

/-- The `/quote` batch loop (lines 180-193): chunked iteration, each
symbol's dispatcher outcome — payload or error — recorded in the results
dict under the caller's original symbol string; the loop never raises. -/
def batchQuotes (o : Oracle) (syms : List String) (w : World) :
    List (String × Except Err QuoteResult) × World :=
  (chunksOf BATCH_SIZE syms).foldl
    (fun acc chunk => chunk.foldl
      (fun acc2 s =>
        let r := get_ticker_quote o s acc2.2
        (dictInsert acc2.1 s r.1, r.2))
      acc)
    ([], w)

/-- The `/dividends` batch loop (lines 540-553). -/
def batchDividends (o : Oracle) (syms : List String) (period : String)
    (w : World) : List (String × Except Err DivResult) × World :=
  (chunksOf BATCH_SIZE syms).foldl
    (fun acc chunk => chunk.foldl
      (fun acc2 s =>
        let r := get_ticker_dividends o s period acc2.2
        (dictInsert acc2.1 s r.1, r.2))
      acc)
    ([], w)

/-! ## Cache behaviour lemmas -/

/-- A freshly stored entry is immediately retrievable (any positive TTL). -/
lemma cacheLookup_store {α : Type} (ttl now : ℤ) (c : Cache α) (k : String)
    (v : α) (h : 0 < ttl) : cacheLookup ttl now (cacheStore now c k v) k = some v := by
  unfold cacheLookup cacheStore
  rw [List.find?_cons_of_pos _ (by simp)]
  dsimp only
  rw [if_pos (by simp only [decide_eq_true_eq]; omega)]

/-- Cache hit short-circuits `get_ticker_quote`: the cached value is
returned and the state — rate limiter and fetch counter included — is
untouched. -/
lemma get_ticker_quote_hit {o : Oracle} {symbol : String} {w : World}
    {v : QuoteResult}
    (h : cacheLookup CACHE_SETTINGS_QUOTE w.clock w.quoteCache (quoteKey symbol) =
      some v) :
    get_ticker_quote o symbol w = (Except.ok v, w) := by
  unfold get_ticker_quote
  rw [h]

lemma get_ticker_historical_hit {o : Oracle} {symbol period interval : String}
    {w : World} {v : HistResult}
    (h : cacheLookup CACHE_SETTINGS_HISTORICAL w.clock w.historicalCache
      (historicalKey symbol period interval) = some v) :
    get_ticker_historical o symbol period interval w = (Except.ok v, w) := by
  unfold get_ticker_historical
  rw [h]

lemma get_ticker_options_hit {o : Oracle} {symbol : String}
    {exp : Option String} {w : World} {v : OptionsResult}
    (h : cacheLookup CACHE_SETTINGS_OPTIONS w.clock w.optionsCache
      (optionsKey symbol exp) = some v) :
    get_ticker_options o symbol exp w = (Except.ok v, w) := by
  unfold get_ticker_options
  rw [h]

/-- After a successful `get_ticker_quote`, the returned value sits in the
quote cache of the returned state under the normalized key. -/
lemma get_ticker_quote_ok_cached {o : Oracle} {symbol : String} {w w' : World}
    {v : QuoteResult} (h : get_ticker_quote o symbol w = (Except.ok v, w')) :
    cacheLookup CACHE_SETTINGS_QUOTE w'.clock w'.quoteCache (quoteKey symbol) =
      some v := by
  unfold get_ticker_quote at h
  cases hc : cacheLookup CACHE_SETTINGS_QUOTE w.clock w.quoteCache (quoteKey symbol) with
  | some cached =>
    rw [hc] at h
    dsimp only at h
    simp only [Prod.mk.injEq, Except.ok.injEq] at h
    obtain ⟨rfl, rfl⟩ := h
    exact hc
  | none =>
    rw [hc] at h
    dsimp only at h
    cases ho : o.info symbol with
    | error e =>
      rw [ho] at h
      simp at h
    | ok q =>
      rw [ho] at h
      dsimp only at h
      simp only [Prod.mk.injEq, Except.ok.injEq] at h
      obtain ⟨rfl, rfl⟩ := h
      exact cacheLookup_store _ _ _ _ _ (by decide)

/-- **C2**: a present, unexpired cache entry short-circuits the fetch: the
cached value is returned and the whole state is unchanged (so there is no
rate-limiter interaction and no upstream call), shown for the quote and
historical categories; and a successful fetch immediately followed by a
second fetch of the same normalized key is served from cache with the
state again unchanged (the collaborator is not invoked a second time). -/
theorem cache_hit_short_circuit :
    (∀ (o : Oracle) (symbol : String) (w : World) (v : QuoteResult),
      cacheLookup CACHE_SETTINGS_QUOTE w.clock w.quoteCache (quoteKey symbol) =
        some v →
      get_ticker_quote o symbol w = (Except.ok v, w)) ∧
    (∀ (o : Oracle) (symbol period interval : String) (w : World) (v : HistResult),
      cacheLookup CACHE_SETTINGS_HISTORICAL w.clock w.historicalCache
        (historicalKey symbol period interval) = some v →
      get_ticker_historical o symbol period interval w = (Except.ok v, w)) ∧
    (∀ (o : Oracle) (symbol : String) (w w' : World) (v : QuoteResult),
      get_ticker_quote o symbol w = (Except.ok v, w') →
      get_ticker_quote o symbol w' = (Except.ok v, w')) := by
  refine ⟨fun o symbol w v h => get_ticker_quote_hit h,
    fun o symbol period interval w v h => get_ticker_historical_hit h,
    fun o symbol w w' v h => get_ticker_quote_hit (get_ticker_quote_ok_cached h)⟩

/-! ### Concrete data for the witnesses -/

/-- A provider whose every call succeeds with fixed data. -/
def demoInfo : Info :=
  ⟨some 1, some 2, some 3, some 4, some "USD", none, none, none, none, none,
    some "Demo Corp", none, none, none⟩

def demoOracle : Oracle :=
  { info := fun _ => Except.ok demoInfo
    history := fun _ _ _ => Except.ok ⟨[1], [2], [3], [4], [5], [6]⟩
    options := fun _ => Except.ok ["2024-01-19"]
    optionChain := fun _ _ => Except.ok ⟨[], []⟩
    dividends := fun _ => Except.ok []
    search := fun _ => Except.ok []
    dateToTs := fun _ => 1705622400 }

/-- A provider whose every call fails. -/
def failOracle : Oracle :=
  { info := fun _ => Except.error "boom"
    history := fun _ _ _ => Except.error "boom"
    options := fun _ => Except.error "boom"
    optionChain := fun _ _ => Except.error "boom"
    dividends := fun _ => Except.error "boom"
    search := fun _ => Except.error "boom"
    dateToTs := fun _ => 0 }

def demoQuote : QuoteResult := ⟨"AAPL", some 1, some 2, some 3, some 4, some "USD"⟩

def demoWorldQ : World :=
  { World.init 0 with quoteCache := [(quoteKey "AAPL", 0, demoQuote)] }

theorem cache_hit_short_circuit_witness :
    get_ticker_quote demoOracle "AAPL" demoWorldQ = (Except.ok demoQuote, demoWorldQ) :=
  cache_hit_short_circuit.1 demoOracle "AAPL" demoWorldQ demoQuote (by decide)

/-- **C8**: cache keys are case-insensitive in the symbol (quotes) and in
the query (search) — case-variants build the identical key string, so no
two cache lines can exist for inputs differing only in case — and
behaviourally, after a successful quote fetch for `s₁`, a fetch for any
case-variant `s₂` is served from the same cache entry with the state
unchanged. -/
theorem cache_key_case_insensitive :
    (∀ s₁ s₂ : String, pyUpper s₁ = pyUpper s₂ → quoteKey s₁ = quoteKey s₂) ∧
    (∀ q₁ q₂ : String, pyLower q₁ = pyLower q₂ → searchKey q₁ = searchKey q₂) ∧
    (∀ (o : Oracle) (s₁ s₂ : String) (w w' : World) (v : QuoteResult),
      pyUpper s₁ = pyUpper s₂ →
      get_ticker_quote o s₁ w = (Except.ok v, w') →
      get_ticker_quote o s₂ w' = (Except.ok v, w')) := by
  have hkey : ∀ s₁ s₂ : String, pyUpper s₁ = pyUpper s₂ → quoteKey s₁ = quoteKey s₂ := by
    intro s₁ s₂ h
    unfold quoteKey
    rw [h]
  refine ⟨hkey, ?_, ?_⟩
  · intro q₁ q₂ h
    unfold searchKey
    rw [h]
  · intro o s₁ s₂ w w' v hcase h
    have hcached := get_ticker_quote_ok_cached h
    rw [hkey s₁ s₂ hcase] at hcached
    exact get_ticker_quote_hit hcached

def demoQuoteLower : QuoteResult := ⟨"aapl", some 1, some 2, some 3, some 4, some "USD"⟩

/-- The state after fetching `"aapl"` from the empty initial state. -/
def demoWorldAfter : World :=
  ⟨0, [0], [0], 1, [("quote:AAPL", 0, demoQuoteLower)], [], [], [], []⟩

theorem cache_key_case_insensitive_witness :
    get_ticker_quote demoOracle "AAPL" demoWorldAfter =
      (Except.ok demoQuoteLower, demoWorldAfter) :=
  cache_key_case_insensitive.2.2 demoOracle "aapl" "AAPL" (World.init 0)
    demoWorldAfter demoQuoteLower (by decide) (by decide)

/-- **C4**: a failed fetch propagates the error and stores nothing — all
five caches of the post-state equal the pre-state's — shown for the quote
and options dispatchers (the cited paths). -/
theorem failed_fetch_never_cached :
    (∀ (o : Oracle) (symbol : String) (w : World) (err : Err),
      (get_ticker_quote o symbol w).1 = Except.error err →
      (get_ticker_quote o symbol w).2.caches = w.caches) ∧
    (∀ (o : Oracle) (symbol : String) (exp : Option String) (w : World) (err : Err),
      (get_ticker_options o symbol exp w).1 = Except.error err →
      (get_ticker_options o symbol exp w).2.caches = w.caches) := by
  constructor
  · intro o symbol w err h
    unfold get_ticker_quote at h ⊢
    cases hc : cacheLookup CACHE_SETTINGS_QUOTE w.clock w.quoteCache (quoteKey symbol) with
    | some cached => rw [hc] at h
    | none =>
      rw [hc] at h
      dsimp only at h ⊢
      cases ho : o.info symbol with
      | error e => rfl
      | ok q => rw [ho] at h; dsimp only at h; simp at h
  · intro o symbol exp w err h
    unfold get_ticker_options at h ⊢
    cases hc : cacheLookup CACHE_SETTINGS_OPTIONS w.clock w.optionsCache
        (optionsKey symbol exp) with
    | some cached => rw [hc] at h
    | none =>
      rw [hc] at h
      dsimp only at h ⊢
      cases ho : o.options symbol with
      | error e => rfl
      | ok exps =>
        rw [ho] at h
        dsimp only at h ⊢
        by_cases he : exps.isEmpty
        · rw [if_pos he]
          rfl
        · rw [if_neg he] at h ⊢
          cases hoc : o.optionChain symbol (selectExpiration exp exps) with
          | error e => rfl
          | ok chain => rw [hoc] at h; dsimp only at h; simp at h

theorem failed_fetch_never_cached_witness :
    (get_ticker_quote failOracle "AAPL" (World.init 0)).2.caches =
      (World.init 0).caches :=
  failed_fetch_never_cached.1 failOracle "AAPL" (World.init 0)
    (Err.upstream "boom") (by decide)

/-! ## Dividend history sorting -/

lemma mem_insertDescByTs {x z : DivRecord} : ∀ {l : List DivRecord},
    z ∈ insertDescByTs x l ↔ z = x ∨ z ∈ l := by
  intro l
  induction l with
  | nil => simp [insertDescByTs]
  | cons y ys ih =>
    unfold insertDescByTs
    split
    · exact List.mem_cons
    · rw [List.mem_cons, ih, List.mem_cons]
      tauto

lemma pairwise_insertDescByTs {x : DivRecord} : ∀ {l : List DivRecord},
    l.Pairwise (fun a b => b.timestamp ≤ a.timestamp) →
    (insertDescByTs x l).Pairwise (fun a b => b.timestamp ≤ a.timestamp) := by
  intro l
  induction l with
  | nil =>
    intro _
    simp [insertDescByTs]
  | cons y ys ih =>
    intro h
    rw [List.pairwise_cons] at h
    obtain ⟨hy, hys⟩ := h
    unfold insertDescByTs
    split
    · rename_i hcond
      rw [List.pairwise_cons]
      constructor
      · intro z hz
        rcases List.mem_cons.mp hz with rfl | hz
        · omega
        · have := hy z hz
          omega
      · rw [List.pairwise_cons]
        exact ⟨hy, hys⟩
    · rename_i hcond
      rw [List.pairwise_cons]
      constructor
      · intro z hz
        rcases mem_insertDescByTs.mp hz with rfl | hz
        · omega
        · exact hy z hz
      · exact ih hys

lemma pairwise_sortDescByTs (l : List DivRecord) :
    (sortDescByTs l).Pairwise (fun a b => b.timestamp ≤ a.timestamp) := by
  have key : ∀ (acc : List DivRecord),
      acc.Pairwise (fun a b => b.timestamp ≤ a.timestamp) →
      (l.foldl (fun acc x => insertDescByTs x acc) acc).Pairwise
        (fun a b => b.timestamp ≤ a.timestamp) := by
    induction l with
    | nil => exact fun acc h => h
    | cons x xs ih => exact fun acc h => ih _ (pairwise_insertDescByTs h)
  exact key [] (by simp)

lemma length_insertDescByTs (x : DivRecord) : ∀ (l : List DivRecord),
    (insertDescByTs x l).length = l.length + 1 := by
  intro l
  induction l with
  | nil => rfl
  | cons y ys ih =>
    unfold insertDescByTs
    split
    · simp
    · simp [ih]

lemma length_sortDescByTs (l : List DivRecord) :
    (sortDescByTs l).length = l.length := by
  have key : ∀ (acc : List DivRecord),
      (l.foldl (fun acc x => insertDescByTs x acc) acc).length =
        acc.length + l.length := by
    induction l with
    | nil => simp
    | cons x xs ih =>
      intro acc
      rw [List.foldl_cons, ih, length_insertDescByTs, List.length_cons]
      omega
  simpa using key []

/-- **C7**: a dividends fetch that succeeds from a cache miss returns a
history sorted by timestamp descending; an empty history comes with the
"no history" message (not an error), and a non-empty one with the
record-count message. -/
theorem dividends_history_shape (o : Oracle) (symbol period : String)
    (w : World) (r : DivResult) (w' : World)
    (hmiss : cacheLookup CACHE_SETTINGS_DIVIDENDS w.clock w.dividendsCache
      (dividendsKey symbol period) = none)
    (h : get_ticker_dividends o symbol period w = (Except.ok r, w')) :
    r.history.Pairwise (fun a b => b.timestamp ≤ a.timestamp) ∧
    (r.history = [] → r.message = "No dividend history found for this symbol") ∧
    (r.history ≠ [] →
      r.message = "Found " ++ toString r.history.length ++ " dividend records") := by
  unfold get_ticker_dividends at h
  rw [hmiss] at h
  dsimp only at h
  cases hd : o.dividends symbol with
  | error e =>
    rw [hd] at h
    simp at h
  | ok divs =>
    rw [hd] at h
    cases hi : o.info symbol with
    | error e =>
      rw [hi] at h
      simp at h
    | ok i =>
      rw [hi] at h
      dsimp only at h
      simp only [Prod.mk.injEq, Except.ok.injEq] at h
      obtain ⟨rfl, rfl⟩ := h
      by_cases he : divs.isEmpty
      · refine ⟨by simp [he], fun _ => by simp [he], fun hne => ?_⟩
        exact absurd (by simp [he]) hne
      · have hlen : (sortDescByTs divs).length = divs.length := length_sortDescByTs divs
        have hdne : divs ≠ [] := by simpa [List.isEmpty_iff] using he
        have hsne : sortDescByTs divs ≠ [] := by
          intro h0
          apply hdne
          have := hlen
          rw [h0] at this
          simpa using this.symm
        refine ⟨by simp only [he, if_false]; exact pairwise_sortDescByTs divs,
          fun h0 => ?_, fun _ => by simp [he]⟩
        exact absurd (by simpa [he] using h0) hsne

def demoDivList : List DivRecord :=
  [⟨"2024-01-01", 100, 1⟩, ⟨"2024-04-01", 200, 2⟩]

def demoDivOracle : Oracle :=
  { demoOracle with dividends := fun _ => Except.ok demoDivList }

def demoDivResult : DivResult :=
  ⟨⟨"T", none, none, none, none, none⟩,
    [⟨"2024-04-01", 200, 2⟩, ⟨"2024-01-01", 100, 1⟩],
    "Found 2 dividend records"⟩

theorem dividends_history_shape_witness :
    demoDivResult.history.Pairwise (fun a b => b.timestamp ≤ a.timestamp) :=
  (dividends_history_shape demoDivOracle "T" "5y" (World.init 0) demoDivResult
    (get_ticker_dividends demoDivOracle "T" "5y" (World.init 0)).2
    (by decide) (by decide)).1

/-- **C9**: the dividends `period` parameter only selects the cache key —
with both keys absent, the fetched payload is identical for any two
periods. -/
theorem dividends_period_immaterial (o : Oracle) (symbol p₁ p₂ : String)
    (w : World)
    (h₁ : cacheLookup CACHE_SETTINGS_DIVIDENDS w.clock w.dividendsCache
      (dividendsKey symbol p₁) = none)
    (h₂ : cacheLookup CACHE_SETTINGS_DIVIDENDS w.clock w.dividendsCache
      (dividendsKey symbol p₂) = none) :
    (get_ticker_dividends o symbol p₁ w).1 = (get_ticker_dividends o symbol p₂ w).1 := by
  unfold get_ticker_dividends
  rw [h₁, h₂]
  dsimp only
  cases o.dividends symbol with
  | error e => rfl
  | ok divs =>
    cases o.info symbol with
    | error e => rfl
    | ok i => rfl

theorem dividends_period_immaterial_witness :
    (get_ticker_dividends demoDivOracle "AAPL" "1y" (World.init 0)).1 =
      (get_ticker_dividends demoDivOracle "AAPL" "5y" (World.init 0)).1 :=
  dividends_period_immaterial demoDivOracle "AAPL" "1y" "5y" (World.init 0)
    (by decide) (by decide)

/-- **C5**: expiration selection — a supplied expiration present in the
provider's list is used; a missing or unlisted one falls back to the first
available expiration (not an error); and when the provider reports no
expirations at all the fetch fails with the classified not-found error,
which the endpoint maps to 404, distinct from the 500 of a generic
failure. -/
theorem options_expiration_selection :
    (∀ (e : String) (exps : List String), exps.contains e = true →
      selectExpiration (some e) exps = e) ∧
    (∀ (e : String) (exps : List String), exps.contains e = false →
      selectExpiration (some e) exps = exps.headD "") ∧
    (∀ exps : List String, selectExpiration none exps = exps.headD "") ∧
    (∀ (o : Oracle) (symbol : String) (exp : Option String) (w : World),
      cacheLookup CACHE_SETTINGS_OPTIONS w.clock w.optionsCache
        (optionsKey symbol exp) = none →
      o.options symbol = Except.ok [] →
      (get_ticker_options o symbol exp w).1 =
        Except.error (Err.notFound ("No options available for " ++ symbol)) ∧
      optionsStatus (get_ticker_options o symbol exp w).1 = 404) ∧
    (∀ (o : Oracle) (symbol : String) (exp : Option String) (w : World)
        (exps : List String) (chain : OptionChain),
      cacheLookup CACHE_SETTINGS_OPTIONS w.clock w.optionsCache
        (optionsKey symbol exp) = none →
      o.options symbol = Except.ok exps →
      exps ≠ [] →
      o.optionChain symbol (selectExpiration exp exps) = Except.ok chain →
      (get_ticker_options o symbol exp w).1 =
        Except.ok (shapeOptions o.dateToTs exps chain)) ∧
    (∀ m m' : String,
      optionsStatus (Except.error (Err.notFound m)) ≠
        optionsStatus (Except.error (Err.upstream m'))) := by
  refine ⟨?_, ?_, ?_, ?_, ?_, ?_⟩
  · intro e exps hc
    unfold selectExpiration
    dsimp only
    rw [if_pos hc]
  · intro e exps hc
    unfold selectExpiration
    dsimp only
    rw [if_neg (by rw [hc]; exact Bool.false_ne_true)]
  · intro exps
    rfl
  · intro o symbol exp w hmiss hopt
    have hrun : (get_ticker_options o symbol exp w).1 =
        Except.error (Err.notFound ("No options available for " ++ symbol)) := by
      unfold get_ticker_options
      rw [hmiss]
      dsimp only
      rw [hopt]
      rfl
    refine ⟨hrun, ?_⟩
    rw [hrun]
    rfl
  · intro o symbol exp w exps chain hmiss hopt hne hchain
    unfold get_ticker_options
    rw [hmiss]
    dsimp only
    rw [hopt]
    dsimp only
    rw [if_neg (by simpa [List.isEmpty_iff] using hne)]
    rw [hchain]
  · intro m m'
    simp [optionsStatus]

def demoNoOptOracle : Oracle :=
  { demoOracle with options := fun _ => Except.ok [] }

theorem options_expiration_selection_witness :
    (get_ticker_options demoNoOptOracle "T" none (World.init 0)).1 =
      Except.error (Err.notFound ("No options available for " ++ "T")) ∧
    optionsStatus (get_ticker_options demoNoOptOracle "T" none (World.init 0)).1 = 404 :=
  options_expiration_selection.2.2.2.1 demoNoOptOracle "T" none (World.init 0)
    (by decide) (by decide)

/-- **C10**: supplying an expiration that is not in the provider's list
stores the first-expiration fallback payload under the cache key built
from the *supplied* string; while unexpired, every later fetch for the
same symbol and the same supplied expiration — against *any* provider
state, even one where that expiration has become valid — is served that
fallback payload from cache, with the state unchanged. -/
theorem invalid_expiration_cached_under_supplied_key
    (o : Oracle) (symbol e : String) (w : World) (exps : List String)
    (chain : OptionChain)
    (hmiss : cacheLookup CACHE_SETTINGS_OPTIONS w.clock w.optionsCache
      (optionsKey symbol (some e)) = none)
    (hopt : o.options symbol = Except.ok exps)
    (hne : exps ≠ [])
    (hinv : exps.contains e = false)
    (hchain : o.optionChain symbol (exps.headD "") = Except.ok chain) :
    (get_ticker_options o symbol (some e) w).1 =
      Except.ok (shapeOptions o.dateToTs exps chain) ∧
    cacheLookup CACHE_SETTINGS_OPTIONS
      (get_ticker_options o symbol (some e) w).2.clock
      (get_ticker_options o symbol (some e) w).2.optionsCache
      (optionsKey symbol (some e)) = some (shapeOptions o.dateToTs exps chain) ∧
    (∀ o' : Oracle,
      get_ticker_options o' symbol (some e) (get_ticker_options o symbol (some e) w).2 =
        (Except.ok (shapeOptions o.dateToTs exps chain),
          (get_ticker_options o symbol (some e) w).2)) := by
  have hsel : selectExpiration (some e) exps = exps.headD "" := by
    unfold selectExpiration
    dsimp only
    rw [if_neg (by rw [hinv]; exact Bool.false_ne_true)]
  have hrun : get_ticker_options o symbol (some e) w =
      (Except.ok (shapeOptions o.dateToTs exps chain),
        optionsStoreWorld (startFetch (rlAdmit w)) (optionsKey symbol (some e))
          (shapeOptions o.dateToTs exps chain)) := by
    unfold get_ticker_options
    rw [hmiss]
    dsimp only
    rw [hopt]
    dsimp only
    rw [if_neg (by simpa [List.isEmpty_iff] using hne)]
    rw [hsel, hchain]
    rfl
  rw [hrun]
  refine ⟨rfl, ?_, ?_⟩
  · exact cacheLookup_store _ _ _ _ _ (by decide)
  · intro o'
    exact get_ticker_options_hit (cacheLookup_store _ _ _ _ _ (by decide))

/-! ## Batch loop lemmas -/

/-- Folding chunk-by-chunk is folding over the whole list: the
`range(0, len, BATCH_SIZE)` slicing of the batch loops visits every symbol
exactly once, in order. -/
lemma foldl_chunksOf {α β : Type} (f : β → α → β) (n : Nat) (hn : n ≠ 0) :
    ∀ (k : Nat) (l : List α), l.length ≤ k → ∀ (a : β),
      (chunksOf n l).foldl (fun acc chunk => chunk.foldl f acc) a = l.foldl f a := by
  intro k
  induction k with
  | zero =>
    intro l hl a
    have hnil : l = [] := List.eq_nil_of_length_eq_zero (Nat.le_zero.mp hl)
    subst hnil
    rw [chunksOf]
    simp
  | succ k ih =>
    intro l hl a
    rw [chunksOf]
    by_cases h : l.isEmpty || n == 0
    · rw [if_pos h]
      simp only [Bool.or_eq_true, List.isEmpty_iff, beq_iff_eq] at h
      rcases h with h | h
      · subst h
        rfl
      · exact absurd h hn
    · rw [if_neg h]
      simp only [Bool.or_eq_true, List.isEmpty_iff, beq_iff_eq] at h
      push_neg at h
      rw [List.foldl_cons]
      have hdrop : (l.drop n).length ≤ k := by
        rw [List.length_drop]
        have h0 : 0 < l.length := List.length_pos.mpr h.1
        have h1 : 0 < n := Nat.pos_of_ne_zero h.2
        omega
      rw [ih (l.drop n) hdrop]
      rw [← List.foldl_append, List.take_append_drop]

lemma dictLookup_dictInsert_self {α : Type} : ∀ (m : List (String × α)) (k : String) (v : α),
    dictLookup (dictInsert m k v) k = some v := by
  intro m
  induction m with
  | nil =>
    intro k v
    simp [dictInsert, dictLookup, List.find?]
  | cons p rest ih =>
    intro k v
    obtain ⟨k', v'⟩ := p
    unfold dictInsert
    by_cases h : k' == k
    · rw [if_pos h]
      simp [dictLookup, List.find?]
    · rw [if_neg h]
      unfold dictLookup
      rw [List.find?_cons_of_neg _ (by simpa using h)]
      exact ih k v

lemma dictLookup_dictInsert_isSome {α : Type} :
    ∀ (m : List (String × α)) (k k' : String) (v : α),
      (dictLookup m k').isSome = true →
      (dictLookup (dictInsert m k v) k').isSome = true := by
  intro m
  induction m with
  | nil =>
    intro k k' v h
    simp [dictLookup, List.find?] at h
  | cons p rest ih =>
    intro k k' v h
    obtain ⟨k₀, v₀⟩ := p
    unfold dictInsert
    by_cases hk : k₀ == k
    · rw [if_pos hk]
      by_cases hk' : k == k'
      · unfold dictLookup
        rw [List.find?_cons_of_pos _ (by simpa using hk')]
        rfl
      · unfold dictLookup at h ⊢
        rw [List.find?_cons_of_neg _ (by simpa using hk')]
        rw [List.find?_cons_of_neg _ ?_] at h
        · exact h
        · have : k₀ = k := by simpa using hk
          subst this
          simpa using hk'
    · rw [if_neg hk]
      by_cases hk' : k₀ == k'
      · unfold dictLookup at h ⊢
        rw [List.find?_cons_of_pos _ (by simpa using hk')] at h ⊢
        exact h
      · unfold dictLookup at h ⊢
        rw [List.find?_cons_of_neg _ (by simpa using hk')] at h ⊢
        exact ih k k' v h

/-- After the per-symbol fold of a batch loop, every processed symbol has
an entry in the results dict, no matter which dispatch calls failed. -/
lemma batch_fold_covers {β : Type} (g : String → World → Except Err β × World) :
    ∀ (syms : List String) (acc : List (String × Except Err β) × World) (s : String),
      s ∈ syms ∨ (dictLookup acc.1 s).isSome = true →
      (dictLookup
        (syms.foldl
          (fun acc2 t => (dictInsert acc2.1 t (g t acc2.2).1, (g t acc2.2).2)) acc).1
        s).isSome = true := by
  intro syms
  induction syms with
  | nil =>
    intro acc s h
    rcases h with h | h
    · cases h
    · exact h
  | cons t ts ih =>
    intro acc s h
    rw [List.foldl_cons]
    apply ih
    rcases h with h | h
    · rcases List.mem_cons.mp h with rfl | h
      · right
        dsimp only
        rw [dictLookup_dictInsert_self]
        rfl
      · left
        exact h
    · right
      dsimp only
      exact dictLookup_dictInsert_isSome _ _ _ _ h

/-- **C3**: the batch loops never abort or skip: for every input symbol —
duplicates and failing symbols included, under any provider behaviour, even
one that fails for every symbol — the returned mapping has an entry keyed
by the caller's original symbol string (a payload or an `{error: ...}`
entry), and the batch as a whole is a structurally successful result. -/
theorem batch_partial_failure_isolation :
    (∀ (o : Oracle) (syms : List String) (w : World) (s : String), s ∈ syms →
      (dictLookup (batchQuotes o syms w).1 s).isSome = true) ∧
    (∀ (o : Oracle) (syms : List String) (period : String) (w : World) (s : String),
      s ∈ syms →
      (dictLookup (batchDividends o syms period w).1 s).isSome = true) := by
  constructor
  · intro o syms w s hs
    unfold batchQuotes
    rw [foldl_chunksOf _ BATCH_SIZE (by decide) syms.length syms (le_refl _)]
    exact batch_fold_covers (fun t w' => get_ticker_quote o t w') syms ([], w) s
      (Or.inl hs)
  · intro o syms period w s hs
    unfold batchDividends
    rw [foldl_chunksOf _ BATCH_SIZE (by decide) syms.length syms (le_refl _)]
    exact batch_fold_covers (fun t w' => get_ticker_dividends o t period w') syms
      ([], w) s (Or.inl hs)

theorem batch_partial_failure_isolation_witness :
    (dictLookup (batchQuotes failOracle ["AAPL", "BAD", "MSFT"] (World.init 0)).1
      "BAD").isSome = true :=
  batch_partial_failure_isolation.1 failOracle ["AAPL", "BAD", "MSFT"]
    (World.init 0) "BAD" (by decide)

theorem invalid_expiration_cached_under_supplied_key_witness :
    (get_ticker_options demoOracle "T" (some "1999-01-01") (World.init 0)).1 =
      Except.ok (shapeOptions demoOracle.dateToTs ["2024-01-19"] ⟨[], []⟩) :=
  (invalid_expiration_cached_under_supplied_key demoOracle "T" "1999-01-01"
    (World.init 0) ["2024-01-19"] ⟨[], []⟩
    (by decide) (by decide) (by decide) (by decide) (by decide)).1

end YfService
